import Mathlib

/-!
Verification of the miniwdl static front end.  The Python sources
WDL/Document.py, WDL/__init__.py and WDL/CLI.py are shallowly embedded below:
Python classes become structures, fallible constructors and checks return
Except, and the collaborator modules that are not part of the given sources
(WDL/Type.py, WDL/Expr.py, WDL/Error.py, WDL/Value.py, WDL/_parser.py) are
modelled from the specification where a claim depends on them.
-/

namespace MiniWdl

/-- SourcePosition provenance record attached to every AST node
(WDL/Error.py, modelled from the spec, section 3). -/
structure SourcePosition where
  uri : String
  line : Nat
  column : Nat
  end_line : Nat
  end_column : Nat
deriving DecidableEq

/-- Modelled from the spec: the type model of WDL/Type.py (not in src/),
section 3: Int, Float, Boolean, String, File, Array(item); every type carries
an optional-quantifier flag and Array additionally carries a nonempty flag. -/
inductive Ty where
  | int (optional : Bool)
  | float (optional : Bool)
  | boolean (optional : Bool)
  | string (optional : Bool)
  | file (optional : Bool)
  | array (item : Ty) (optional : Bool) (nonempty : Bool)
deriving DecidableEq

/-- Test for Array types, as isinstance(type, T.Array) in the sources. -/
def Ty.isArray : Ty → Bool
  | .array _ _ _ => true
  | _ => false

/-- Optional-quantifier flag of a type. -/
def Ty.optionalFlag : Ty → Bool
  | .int o => o
  | .float o => o
  | .boolean o => o
  | .string o => o
  | .file o => o
  | .array _ o _ => o

/-- Nonempty-quantifier flag of a type; only an Array can carry it, every
other type reports false (the CLI only reads it behind an isArray guard). -/
def Ty.nonemptyFlag : Ty → Bool
  | .array _ _ ne => ne
  | _ => false

/-- Item type of an Array; accessing it on a non-Array is a programming error
in the sources, so every call site below guards it with isArray, and the
non-Array branch here is arbitrary. -/
def Ty.itemTypeD : Ty → Ty
  | .array it _ _ => it
  | t => t

/-- Modelled from the spec: the coercion relation of WDL/Type.py (not in
src/), section 3: identity always coerces; Int coerces to Float; under
relaxed mode (check_quant = false) a bare T coerces to Array[T] and an
optional type coerces to any expected type. -/
def Ty.coerces (a b : Ty) (check_quant : Bool) : Bool :=
  a == b ||
  (match a, b with
   | .int _, .float _ => true
   | _, _ => false) ||
  (!check_quant &&
    ((match b with
      | .array item _ _ => a == item
      | _ => false) || a.optionalFlag))

/-- Modelled from the spec: the error taxonomy of WDL/Error.py (not in src/),
section 7, restricted to the error kinds raised by the embedded code, with
payloads reduced to what the claims mention. -/
inductive Err where
  | unknownIdentifier (name : String)
  | noSuchFunction (name : String)
  | wrongArity (fn : String)
  | staticTypeMismatch (expected actual : Ty)
  | incompatibleOperand (pos : SourcePosition) (msg : String)
  | evalError (msg : String)
deriving DecidableEq

mutual
/-- Modelled from the spec: the expression AST of WDL/Expr.py (not in src/),
section 3; float literal payloads are elided since no claim evaluates a
float, and all the constructors the claims exercise are present. -/
inductive Expr where
  | boolean (pos : SourcePosition) (b : Bool)
  | int (pos : SourcePosition) (n : Int)
  | string (pos : SourcePosition) (parts : List SPart)
  | array (pos : SourcePosition) (items : List Expr)
  | apply (pos : SourcePosition) (fn : String) (args : List Expr)
  | ifthenelse (pos : SourcePosition) (cond cons alt : Expr)
  | ident (pos : SourcePosition) (parts : List String)

/-- Part of a string or command literal: a run of literal characters, or an
embedded placeholder (E.Placeholder) with its option list. -/
inductive SPart where
  | lit (s : List Char)
  | placeholder (options : List (String × String)) (inner : Expr)
end

/-- Modelled from the spec: the scope-chained type environment of
WDL/Expr.py (not in src/), section 4.3: a cons-chain of (name, type) pairs,
looked up most-recently-bound first. -/
abbrev TypeEnv := List (String × Ty)

/-- Modelled from the spec: the standard-library signature table of
WDL/StdLib.py (not in src/), restricted to the binary integer addition
operator that the claims exercise; an unknown name yields NoSuchFunction and
a wrong argument count WrongArity (section 4.2). -/
def stdlibSig (fn : String) : Option (List Ty × Ty) :=
  if fn = "_add" then some ([Ty.int false, Ty.int false], Ty.int false) else none

mutual
/-- Modelled from the spec: infer_type of WDL/Expr.py (not in src/),
section 4.2: identifiers resolve in the environment (UnknownIdentifier on
failure), literals type themselves, String infers to String unconditionally,
Array unifies its items (an empty array literal is given item type String
here; the spec leaves it to later unification and no claim depends on it),
Apply checks the named signature, IfThenElse requires a Boolean condition
and coercible branches; check_quant is the globally threaded relaxed flag. -/
def inferType (cq : Bool) (env : TypeEnv) : Expr → Except Err Ty
  | .boolean _ _ => .ok (.boolean false)
  | .int _ _ => .ok (.int false)
  | .string _ _ => .ok (.string false)
  | .array _ items =>
      match inferTypes cq env items with
      | .error er => .error er
      | .ok [] => .ok (.array (.string false) false false)
      | .ok (t :: rest) =>
          match rest.find? (fun u => !(u.coerces t cq)) with
          | some u => .error (.staticTypeMismatch t u)
          | none => .ok (.array t false false)
  | .apply _ fn args =>
      match inferTypes cq env args with
      | .error er => .error er
      | .ok ts =>
          match stdlibSig fn with
          | none => .error (.noSuchFunction fn)
          | some (params, ret) =>
              if ts.length = params.length then
                match (ts.zip params).find? (fun p => !(p.1.coerces p.2 cq)) with
                | some p => .error (.staticTypeMismatch p.2 p.1)
                | none => .ok ret
              else .error (.wrongArity fn)
  | .ifthenelse _ c t e =>
      match inferType cq env c with
      | .error er => .error er
      | .ok (.boolean _) =>
          match inferType cq env t, inferType cq env e with
          | .error er, _ => .error er
          | .ok _, .error er => .error er
          | .ok tt, .ok et =>
              if et.coerces tt cq then .ok tt
              else if tt.coerces et cq then .ok et
              else .error (.staticTypeMismatch tt et)
      | .ok ct => .error (.staticTypeMismatch (.boolean false) ct)
  | .ident _ ps =>
      match ps with
      | [n] =>
          match List.lookup n env with
          | some t => .ok t
          | none => .error (.unknownIdentifier n)
      | _ => .error (.unknownIdentifier (String.intercalate "." ps))

/-- Inference mapped over an argument or item list, failing fast on the
first error like the Python recursion. -/
def inferTypes (cq : Bool) (env : TypeEnv) : List Expr → Except Err (List Ty)
  | [] => .ok []
  | e :: es =>
      match inferType cq env e with
      | .error er => .error er
      | .ok t =>
          match inferTypes cq env es with
          | .error er => .error er
          | .ok ts => .ok (t :: ts)
end

/-- Modelled from the spec: the second type-check phase (section 4.2): the
inferred type must coerce to the expected one, otherwise StaticTypeMismatch;
this is the typecheck call chained after infer_type in WDL/Document.py. -/
def tyTypecheck (actual expected : Ty) (cq : Bool) : Except Err Unit :=
  if actual.coerces expected cq then .ok () else .error (.staticTypeMismatch expected actual)

/-- Declaration AST node (WDL/Document.py lines 16-33): a type, a name, the
two quantifier flags and an optional initializer expression. -/
structure Decl where
  pos : SourcePosition
  type : Ty
  name : String
  optional : Bool
  nonempty : Bool
  expr : Option Expr

/-- Decl construction (WDL/Document.py lines 27-36): the fields are stored
and then the quantifier invariant is checked, raising IncompatibleOperand
when nonempty is set on a non-Array type. -/
def Decl.build (pos : SourcePosition) (type : Ty) (name : String)
    (optional : Bool) (nonempty : Bool) (expr : Option Expr) : Except Err Decl :=
  if nonempty && !type.isArray then
    .error (.incompatibleOperand pos "nonempty quantifier (+) on non-Array type")
  else
    .ok ⟨pos, type, name, optional, nonempty, expr⟩

/-- Decl.bind (WDL/Document.py lines 43-44): re-runs the constructor on the
same pos, type, name and quantifier flags with the new expression. -/
def Decl.bind (d : Decl) (e : Expr) : Except Err Decl :=
  Decl.build d.pos d.type d.name d.optional d.nonempty (some e)

/-- Declaration type-checking step (WDL/Document.py lines 82-85): when the
Decl carries an expression it is inferred and checked against the declared
type first, then the environment is extended with (name, type) whether or
not an expression was present. -/
def typecheckDecl (cq : Bool) (decl : Decl) (env : TypeEnv) : Except Err TypeEnv :=
  match decl.expr with
  | none => .ok ((decl.name, decl.type) :: env)
  | some e =>
      match inferType cq env e with
      | .error er => .error er
      | .ok t =>
          match tyTypecheck t decl.type cq with
          | .error er => .error er
          | .ok _ => .ok ((decl.name, decl.type) :: env)

/-- Left-to-right fold of the declaration check over a list, as the for
loops of Task.typecheck (WDL/Document.py lines 76-80). -/
def foldDecls (cq : Bool) : List Decl → TypeEnv → Except Err TypeEnv
  | [], env => .ok env
  | d :: ds, env =>
      match typecheckDecl cq d env with
      | .error er => .error er
      | .ok env2 => foldDecls cq ds env2

/-- Modelled from the spec: the runtime value model of WDL/Value.py (not in
src/), restricted to the plain values produced by meta-section constant
folding and by the empty-array binding of the CLI; an Array value carries
its item type, as Value.Array(item_type, items) does. -/
inductive Value where
  | boolean (b : Bool)
  | int (n : Int)
  | string (s : List Char)
  | array (item : Ty) (elems : List Value)

/-- Mapping stored by a meta, parameter_meta or runtime section. -/
abbrev MetaMap := List (String × Value)

/-- Task AST node (WDL/Document.py lines 47-69). -/
structure Task where
  pos : SourcePosition
  name : String
  inputs : List Decl
  postinputs : List Decl
  command : Expr
  outputs : List Decl
  parameter_meta : MetaMap
  runtime : MetaMap
  meta : MetaMap

/-- Task.typecheck (WDL/Document.py lines 72-80): fold the declaration check
over inputs then postinputs in file order, check the command against String
in the resulting environment, then fold over outputs; check_quant models the
globally threaded relaxed-mode flag of spec section 4.2. -/
def Task.typecheck (cq : Bool) (t : Task) (type_env : TypeEnv) : Except Err Unit :=
  match foldDecls cq (t.inputs ++ t.postinputs) type_env with
  | .error er => .error er
  | .ok env =>
      match inferType cq env t.command with
      | .error er => .error er
      | .ok ct =>
          match tyTypecheck ct (Ty.string false) cq with
          | .error er => .error er
          | .ok _ =>
              match foldDecls cq t.outputs env with
              | .error er => .error er
              | .ok _ => .ok ()

/-- Continuation of Task.typecheck after the input/postinput fold: the
command check against String followed by the outputs fold. -/
def taskCheckRest (cq : Bool) (t : Task) (env : TypeEnv) : Except Err Unit :=
  match inferType cq env t.command with
  | .error er => .error er
  | .ok ct =>
      match tyTypecheck ct (Ty.string false) cq with
      | .error er => .error er
      | .ok _ =>
          match foldDecls cq t.outputs env with
          | .error er => .error er
          | .ok _ => .ok ()

/-- Bindings contributed by a declaration list, newest first, exactly as
they sit in the environment chain after the fold. -/
def declBindings (ds : List Decl) : TypeEnv :=
  (ds.map fun d => (d.name, d.type)).reverse

/-- Interpolation-open marker that a lexer fragment token carries as its
trailing two characters (the code comment at WDL/__init__.py lines 35-37). -/
def interpOpen : List Char := ['$', '\x7b']

/-- Placeholder-closing marker character. -/
def closeMarker : List Char := ['\x7d']

/-- Test that a token type name ends with the fragment suffix, as the
Python item.type.endswith check (WDL/__init__.py lines 34 and 121); spelled
over character lists so that it computes structurally. -/
def endsWithFragment (ttype : String) : Bool :=
  "_FRAGMENT".toList.isSuffixOf ttype.toList

/-- Item handed to the string transformer rule (WDL/__init__.py lines
29-41): either an embedded expression (an E.Base instance) or a lexer token
with its type name and character payload. -/
inductive StrItem where
  | expr (e : Expr)
  | token (ttype : String) (value : List Char)

/-- Item handed to the command transformer rule (WDL/__init__.py lines
116-125): either an already-built placeholder or a lexer token. -/
inductive CmdItem where
  | placeholder (options : List (String × String)) (inner : Expr)
  | token (ttype : String) (value : List Char)

/-- Loop body of the string rule (WDL/__init__.py lines 31-40): an embedded
expression is wrapped in a Placeholder with empty options, a token whose
type name ends in the fragment suffix has its value stored with the last
two characters stripped, and any other token value is stored verbatim. -/
def strPartOf : StrItem → SPart
  | .expr e => .placeholder [] e
  | .token t v =>
      if endsWithFragment t then .lit v.dropLast.dropLast else .lit v

/-- String rule of the expression transformer (WDL/__init__.py lines
29-41). -/
def xfString (pos : SourcePosition) (items : List StrItem) : Expr :=
  .string pos (items.map strPartOf)

/-- Loop body of the command rule (WDL/__init__.py lines 118-124):
placeholders are kept, fragment tokens are stripped of their trailing two
characters, other token values are stored verbatim. -/
def cmdPartOf : CmdItem → SPart
  | .placeholder opts inner => .placeholder opts inner
  | .token t v =>
      if endsWithFragment t then .lit v.dropLast.dropLast else .lit v

/-- Command rule of the task transformer (WDL/__init__.py lines 116-125). -/
def xfCommand (pos : SourcePosition) (items : List CmdItem) : Expr :=
  .string pos (items.map cmdPartOf)

/-- Modelled from the spec: contract of the grammar engine (WDL/_parser.py,
not in src/) for string and command items, section 4.5 and the code comment
at WDL/__init__.py lines 35-37: a fragment token's value is a clean literal
followed by the interpolation-open marker, any other token's value is a
clean literal, and placeholder-closing markers are filtered out by the
grammar before the transformer runs. -/
def cleanChars (s : List Char) : Prop :=
  ¬ List.IsSuffix interpOpen s ∧ s ≠ closeMarker

/-- Well-formedness of a string-rule item under the grammar contract. -/
def wfStrItem : StrItem → Prop
  | .expr _ => True
  | .token t v =>
      if endsWithFragment t then ∃ s, v = s ++ interpOpen ∧ cleanChars s
      else cleanChars v

/-- Well-formedness of a command-rule item under the grammar contract. -/
def wfCmdItem : CmdItem → Prop
  | .placeholder _ _ => True
  | .token t v =>
      if endsWithFragment t then ∃ s, v = s ++ interpOpen ∧ cleanChars s
      else cleanChars v

/-- Cleanliness of one stored string part: literal parts carry no marker
noise, placeholder parts are always acceptable. -/
def cleanPart : SPart → Prop
  | .lit s => cleanChars s
  | .placeholder _ _ => True

/-- Relation between a string-rule input item and the part stored for it. -/
def strPartSpec (it : StrItem) (p : SPart) : Prop :=
  (∀ e, it = .expr e → p = .placeholder [] e) ∧
  (∀ t v s, it = .token t v → endsWithFragment t = true → v = s ++ interpOpen →
    p = .lit s) ∧
  (∀ t v, it = .token t v → endsWithFragment t = false → p = .lit v)

/-- Relation between a command-rule input item and the part stored for it. -/
def cmdPartSpec (it : CmdItem) (p : SPart) : Prop :=
  (∀ opts inner, it = .placeholder opts inner → p = .placeholder opts inner) ∧
  (∀ t v s, it = .token t v → endsWithFragment t = true → v = s ++ interpOpen →
    p = .lit s) ∧
  (∀ t v, it = .token t v → endsWithFragment t = false → p = .lit v)

/-- Modelled from the spec: the Python exception kinds that the task
aggregator can surface (section 7 for ValidationError, which the given code
never raises there; AssertionError models a failed assert statement and
KeyError a missing dictionary key). -/
inductive PyErr where
  | assertionError
  | keyError (k : String)
  | validationError (msg : String)
deriving DecidableEq

/-- Kind token of a meta-style section, constrained by the grammar to one of
meta, parameter_meta or runtime (WDL/__init__.py lines 146-150). -/
inductive MetaKind where
  | meta
  | parameter_meta
  | runtime
deriving DecidableEq

/-- Single-key fragment or bare name token produced by the task sub-rules
and consumed by the task aggregator (WDL/__init__.py lines 105-164). -/
inductive TaskItem where
  | inputsSec (ds : List Decl)
  | declsSec (ds : List Decl)
  | commandSec (c : Expr)
  | outputsSec (ds : List Decl)
  | metaSec (kind : MetaKind) (m : MetaMap)
  | nameTok (s : String)

/-- Dictionary key under which the aggregator stores each item. -/
inductive Key where
  | inputs
  | decls
  | command
  | outputs
  | parameter_meta
  | runtime
  | meta
  | name
deriving DecidableEq

/-- Key of a task item in the aggregate dictionary. -/
def keyOf : TaskItem → Key
  | .inputsSec _ => .inputs
  | .declsSec _ => .decls
  | .commandSec _ => .command
  | .outputsSec _ => .outputs
  | .metaSec .meta _ => .meta
  | .metaSec .parameter_meta _ => .parameter_meta
  | .metaSec .runtime _ => .runtime
  | .nameTok _ => .name

/-- Aggregate dictionary built by the task rule (the dict d of
WDL/__init__.py lines 151-161), one optional slot per possible key. -/
structure Agg where
  name : Option String
  inputs : Option (List Decl)
  decls : Option (List Decl)
  command : Option Expr
  outputs : Option (List Decl)
  parameter_meta : Option MetaMap
  runtime : Option MetaMap
  meta : Option MetaMap

/-- Empty aggregate dictionary. -/
def emptyAgg : Agg := ⟨none, none, none, none, none, none, none, none⟩

/-- Occupancy of a key in the aggregate (the membership test of the assert
statements in WDL/__init__.py lines 156 and 160). -/
def occupied (g : Agg) : Key → Bool
  | .inputs => g.inputs.isSome
  | .decls => g.decls.isSome
  | .command => g.command.isSome
  | .outputs => g.outputs.isSome
  | .parameter_meta => g.parameter_meta.isSome
  | .runtime => g.runtime.isSome
  | .meta => g.meta.isSome
  | .name => g.name.isSome

/-- Insertion of an item into the aggregate, without the duplicate check. -/
def insertItem (g : Agg) : TaskItem → Agg
  | .inputsSec ds => { g with inputs := some ds }
  | .declsSec ds => { g with decls := some ds }
  | .commandSec c => { g with command := some c }
  | .outputsSec ds => { g with outputs := some ds }
  | .metaSec .meta m => { g with meta := some m }
  | .metaSec .parameter_meta m => { g with parameter_meta := some m }
  | .metaSec .runtime m => { g with runtime := some m }
  | .nameTok s => { g with name := some s }

/-- One aggregation step of the task rule (WDL/__init__.py lines 153-161): a
fragment or name token is inserted into the dictionary after an assert that
its key is not already present; a failing assert raises AssertionError. -/
def aggStep (g : Agg) : TaskItem → Except PyErr Agg
  | .inputsSec ds =>
      if g.inputs.isSome then .error .assertionError else .ok { g with inputs := some ds }
  | .declsSec ds =>
      if g.decls.isSome then .error .assertionError else .ok { g with decls := some ds }
  | .commandSec c =>
      if g.command.isSome then .error .assertionError else .ok { g with command := some c }
  | .outputsSec ds =>
      if g.outputs.isSome then .error .assertionError else .ok { g with outputs := some ds }
  | .metaSec .meta m =>
      if g.meta.isSome then .error .assertionError else .ok { g with meta := some m }
  | .metaSec .parameter_meta m =>
      if g.parameter_meta.isSome then .error .assertionError
      else .ok { g with parameter_meta := some m }
  | .metaSec .runtime m =>
      if g.runtime.isSome then .error .assertionError else .ok { g with runtime := some m }
  | .nameTok s =>
      if g.name.isSome then .error .assertionError else .ok { g with name := some s }

/-- Aggregation loop of the task rule over the item list, starting from a
given dictionary state. -/
def aggFrom (g : Agg) : List TaskItem → Except PyErr Agg
  | [] => .ok g
  | it :: its =>
      match aggStep g it with
      | .error e => .error e
      | .ok g2 => aggFrom g2 its

/-- Aggregation of a task item list starting from the empty dictionary. -/
def aggregate (items : List TaskItem) : Except PyErr Agg :=
  aggFrom emptyAgg items

/-- Task construction from the aggregate (WDL/__init__.py lines 162-164):
the mandatory name and command keys are read first, in Python argument
order, raising KeyError when absent; every other section defaults to an
empty list or mapping. -/
def buildTask (pos : SourcePosition) (g : Agg) : Except PyErr Task :=
  match g.name with
  | none => .error (.keyError "name")
  | some nm =>
      match g.command with
      | none => .error (.keyError "command")
      | some c =>
          .ok ⟨pos, nm, g.inputs.getD [], g.decls.getD [], c, g.outputs.getD [],
               g.parameter_meta.getD [], g.runtime.getD [], g.meta.getD []⟩

/-- Whole task rule (WDL/__init__.py lines 151-164): aggregate the items,
then build the Task from the dictionary. -/
def taskTransform (pos : SourcePosition) (items : List TaskItem) : Except PyErr Task :=
  match aggregate items with
  | .error e => .error e
  | .ok g => buildTask pos g

/-- Decision of whether a task-rule outcome is a validation error. -/
def isValidationFailure : Except PyErr Task → Bool
  | .error (.validationError _) => true
  | _ => false

/-- Modelled from the spec: stringification of a plain value when a
placeholder is interpolated; arrays are not stringified by any claim, so
their branch is arbitrary. -/
def valueToChars : Value → List Char
  | .string s => s
  | .int n => (toString n).toList
  | .boolean true => "true".toList
  | .boolean false => "false".toList
  | .array _ _ => []

mutual
/-- Modelled from the spec: the expression evaluator of WDL/Expr.py (not in
src/), used by the transformer only on meta-section literals in an empty
environment (WDL/__init__.py lines 130-137): literals evaluate to the
corresponding plain value, a string concatenates its evaluated parts, an
array evaluates its items and takes its item type from inference, and
anything non-literal fails. -/
def eval : Expr → Except Err Value
  | .boolean _ b => .ok (.boolean b)
  | .int _ n => .ok (.int n)
  | .string _ parts =>
      match evalParts parts with
      | .error er => .error er
      | .ok s => .ok (.string s)
  | .array p items =>
      match inferType true [] (.array p items) with
      | .ok (.array it _ _) =>
          match evalList items with
          | .error er => .error er
          | .ok vs => .ok (.array it vs)
      | _ => .error (.evalError "array")
  | .apply _ _ _ => .error (.evalError "not a literal")
  | .ifthenelse _ _ _ _ => .error (.evalError "not a literal")
  | .ident _ _ => .error (.evalError "unbound identifier")

/-- Evaluation mapped over an item list. -/
def evalList : List Expr → Except Err (List Value)
  | [] => .ok []
  | e :: es =>
      match eval e with
      | .error er => .error er
      | .ok v =>
          match evalList es with
          | .error er => .error er
          | .ok vs => .ok (v :: vs)

/-- Evaluation of string parts into the concatenated character run. -/
def evalParts : List SPart → Except Err (List Char)
  | [] => .ok []
  | .lit s :: ps =>
      match evalParts ps with
      | .error er => .error er
      | .ok rest => .ok (s ++ rest)
  | .placeholder _ inner :: ps =>
      match eval inner with
      | .error er => .error er
      | .ok v =>
          match evalParts ps with
          | .error er => .error er
          | .ok rest => .ok (valueToChars v ++ rest)
end

/-- Meta-literal rule of the task transformer (WDL/__init__.py lines
130-137): the literal expression is type-inferred in an empty environment
and then immediately evaluated in an empty runtime environment; the plain
value is what gets stored. -/
def metaLiteral (e : Expr) : Except Err Value :=
  match inferType true [] e with
  | .error er => .error er
  | .ok _ => eval e

/-- Shape of a meta-section literal: a literal kind, used to classify the
expressions the grammar admits in meta, parameter_meta and runtime
sections (spec section 4.5: numbers, booleans, strings, arrays of the
same). -/
inductive LKind where
  | bool
  | int
  | str
  | arr (k : LKind)
deriving DecidableEq

/-- Type that a literal of the given kind infers to. -/
def tyOfKind : LKind → Ty
  | .bool => .boolean false
  | .int => .int false
  | .str => .string false
  | .arr k => .array (tyOfKind k) false false

/-- Decision that every part of a string literal is a plain character run. -/
def allLitParts (parts : List SPart) : Bool :=
  parts.all fun p =>
    match p with
    | .lit _ => true
    | .placeholder _ _ => false

mutual
/-- Literal kind of an expression, when it is a uniform literal: booleans,
integers, placeholder-free strings, and homogeneous arrays of these (an
empty array counts as an array of strings, matching the item type inference
assigns it). -/
def litKind : Expr → Option LKind
  | .boolean _ _ => some .bool
  | .int _ _ => some .int
  | .string _ parts => if allLitParts parts then some .str else none
  | .array _ items =>
      match litKindList items with
      | some k => some (.arr k)
      | none => none
  | .apply _ _ _ => none
  | .ifthenelse _ _ _ _ => none
  | .ident _ _ => none

/-- Common literal kind of a list of expressions; the empty list gets the
string kind, matching the empty-array item type of inference. -/
def litKindList : List Expr → Option LKind
  | [] => some .str
  | [e] => litKind e
  | e :: e2 :: es =>
      match litKind e, litKindList (e2 :: es) with
      | some k, some k2 => if k = k2 then some k else none
      | _, _ => none
end

/-- Modelled from the spec: the exception tree reaching the CLI error
printer (section 7): position-carrying validation errors and static type
mismatches with their attached source text (empty when none was recorded),
the import error kind with an optional cause, and the aggregate of several
validation errors. -/
inductive Exn where
  | validation (pos : SourcePosition) (source_text : String) (msg : String)
  | staticMismatch (pos : SourcePosition) (source_text : String) (expected actual : Ty)
  | importErr (pos : SourcePosition) (cause : Option Exn)
  | multiple (errs : List Exn)

mutual
/-- Quant-warning flag accumulated by print_error (WDL/CLI.py lines
249-283): aggregates and import causes recurse, and a StaticTypeMismatch
sets the flag exactly when it carries source text (the check sits inside
the source-excerpt branch) and its actual type coerces to the expected type
under check_quant=False. -/
def quantWarningOf : Exn → Bool
  | .validation _ _ _ => false
  | .staticMismatch _ st e a => (st != "") && Ty.coerces a e false
  | .importErr _ none => false
  | .importErr _ (some c) => quantWarningOf c
  | .multiple errs => quantWarningAny errs

/-- Quant-warning flag over a list of printed exceptions. -/
def quantWarningAny : List Exn → Bool
  | [] => false
  | e :: es => quantWarningOf e || quantWarningAny es
end

/-- Hint decision of main (WDL/CLI.py lines 79-88): after print_error runs
on the caught exception, the relaxed-quantifier hint is printed exactly
when strict checking was in effect and the warning flag was set. -/
def mainHint (check_quant : Bool) (exn : Exn) : Bool :=
  check_quant && quantWarningOf exn

/-- Spec-side reading of the claim: somewhere in the printed exception tree
sits a StaticTypeMismatch whose actual type coerces to its expected type
under relaxed quantifier checking (regardless of attached source text). -/
inductive RelaxedMismatchIn : Exn → Prop where
  | found (pos : SourcePosition) (st : String) (e a : Ty) :
      Ty.coerces a e false = true → RelaxedMismatchIn (.staticMismatch pos st e a)
  | importCause (pos : SourcePosition) (c : Exn) :
      RelaxedMismatchIn c → RelaxedMismatchIn (.importErr pos (some c))
  | multipleMem (errs : List Exn) (e : Exn) :
      e ∈ errs → RelaxedMismatchIn e → RelaxedMismatchIn (.multiple errs)

/-- Amended reading: additionally the mismatch must carry source text,
since the flag assignment sits inside the source-excerpt branch. -/
inductive SourcedRelaxedMismatchIn : Exn → Prop where
  | found (pos : SourcePosition) (st : String) (e a : Ty) :
      st ≠ "" → Ty.coerces a e false = true →
      SourcedRelaxedMismatchIn (.staticMismatch pos st e a)
  | importCause (pos : SourcePosition) (c : Exn) :
      SourcedRelaxedMismatchIn c → SourcedRelaxedMismatchIn (.importErr pos (some c))
  | multipleMem (errs : List Exn) (e : Exn) :
      e ∈ errs → SourcedRelaxedMismatchIn e → SourcedRelaxedMismatchIn (.multiple errs)

/-- Tab replacement applied to the reported source line (WDL/CLI.py line
267). -/
def replaceTabs (l : List Char) : List Char :=
  l.map fun c => if c = '\t' then ' ' else c

/-- Condition of the end-column trimming loop (WDL/CLI.py line 274): more
than one caret would remain and the character just before the 1-based end
column is a space. -/
def trimCond (line : List Char) (col j : Nat) : Prop :=
  j > col + 1 ∧ line.getD (j - 2) '\x00' = ' '

instance (line : List Char) (col j : Nat) : Decidable (trimCond line col j) := by
  unfold trimCond
  exact inferInstance

/-- End-column trimming loop of print_error (WDL/CLI.py lines 274-275): the
1-based end column is decremented while more than one caret would remain
and the character just before it is a space. -/
def trimEndCol (line : List Char) (col : Nat) : Nat → Nat
  | 0 => 0
  | e + 1 =>
      if trimCond line col (e + 1) then trimEndCol line col e
      else e + 1

/-- Source-excerpt rendering of print_error (WDL/CLI.py lines 264-279):
the reported line with tabs replaced, and the underline built from the
1-based column and end column, the end column first clamped to the line end
for multi-line spans and then trimmed over trailing spaces. -/
def renderExcerpt (source_text : List Char) (pos : SourcePosition) :
    List Char × List Char :=
  let lines := source_text.splitOn '\n'
  let error_line := replaceTabs (lines.getD (pos.line - 1) [])
  let ec0 := if pos.end_line > pos.line then error_line.length + 1 else pos.end_column
  let ec := trimEndCol error_line pos.column ec0
  (error_line,
   List.replicate (pos.column - 1) ' ' ++ List.replicate (ec - pos.column) '^')

/-- Failure raised by the CLI helper die() (WDL/CLI.py lines 1233-1235),
which prints the message and exits with status 2. -/
inductive CliErr where
  | die (msg : String)
deriving DecidableEq

/-- Handling of one name passed to the --empty option (WDL/CLI.py lines
587-598): the name must resolve among the available inputs, the resolved
declaration must have an Array type without the nonempty flag, and the
input environment is then extended with an empty Array of the declared
item type. -/
def setEmptyOne (available_inputs : List (String × Decl))
    (input_env : List (String × Value)) (empty_name : String) :
    Except CliErr (List (String × Value)) :=
  match List.lookup empty_name available_inputs with
  | none => .error (.die ("No such input: " ++ empty_name))
  | some decl =>
      if !decl.type.isArray || decl.type.nonemptyFlag then
        .error (.die ("Cannot set input " ++ empty_name ++ " to empty array"))
      else
        .ok ((empty_name, Value.array decl.type.itemTypeD []) :: input_env)

/-- Loop over all names passed to --empty (WDL/CLI.py lines 587-598). -/
def setEmptyInputs (available_inputs : List (String × Decl)) :
    List (String × Value) → List String → Except CliErr (List (String × Value))
  | env, [] => .ok env
  | env, n :: ns =>
      match setEmptyOne available_inputs env n with
      | .error e => .error e
      | .ok env2 => setEmptyInputs available_inputs env2 ns

/-- Fixed source position used by the concrete examples below. -/
def pos0 : SourcePosition := ⟨"", 1, 1, 1, 2⟩

/-- Example input declaration a of type Int with no initializer. -/
def aDecl : Decl := ⟨pos0, .int false, "a", false, false, none⟩

/-- Example input declaration b of type Int initialized to a + 1. -/
def bDecl : Decl := ⟨pos0, .int false, "b", false, false,
  some (.apply pos0 "_add" [.ident pos0 ["a"], .int pos0 1])⟩

/-- Example task with inputs a then b: the initializer of b references the
earlier declaration a. -/
def goodTask : Task := ⟨pos0, "t", [aDecl, bDecl], [], .string pos0 [], [], [], [], []⟩

/-- Example task with the inputs reordered to b then a: the initializer of
b now references a later declaration. -/
def badTask : Task := ⟨pos0, "t", [bDecl, aDecl], [], .string pos0 [], [], [], [], []⟩

/-- Example item list for a task source holding two runtime sections. -/
def dupRuntimeItems : List TaskItem :=
  [.metaSec .runtime [], .metaSec .runtime [], .nameTok "t",
   .commandSec (.string pos0 [])]

/-- Example exception: a relaxed-coercible static type mismatch that
carries no source text. -/
def bareMismatch : Exn := .staticMismatch pos0 "" (.int false) (.int true)

/-- Example input declaration for a nonempty-quantified array, as parsed
from a source line declaring an Array with the + quantifier. -/
def xsDecl : Decl := ⟨pos0, .array (.int false) false true, "xs", false, true, none⟩

/-- Example input declaration for a plain array without quantifiers. -/
def ysDecl : Decl := ⟨pos0, .array (.int false) false false, "ys", false, false, none⟩

/-- Example string-rule item list: a single interpolation fragment token. -/
def strItemsExW : List StrItem := [.token "STRING1_FRAGMENT" ("ab$\x7b".toList)]

/-- Example command-rule item list: a fragment token followed by a
placeholder. -/
def cmdItemsExW : List CmdItem :=
  [.token "COMMAND1_FRAGMENT" ("echo $\x7b".toList),
   .placeholder [] (.ident pos0 ["x"])]

/-- Example task item list with a name and a command only. -/
def nameCmdItems : List TaskItem := [.nameTok "t", .commandSec (.string pos0 [])]

/-- Aggregate dictionary reached from nameCmdItems. -/
def agg0 : Agg := ⟨some "t", none, none, some (.string pos0 []), none, none, none, none⟩

/-- Example task item list with a command but no name token. -/
def noNameItems : List TaskItem := [.commandSec (.string pos0 [])]

/-!
Theorems.  Each claim of the specification gets one theorem below, with
shared helper lemmas in between.
-/

/-- Claim C2: constructing a Decl with nonempty set and a non-Array type
always fails with the IncompatibleOperand quantifier-invariant error, and
with an Array type it always succeeds; the check is the constructor's. -/
theorem c2_decl_nonempty_invariant (pos : SourcePosition) (ty : Ty) (nm : String)
    (opt : Bool) (e : Option Expr) :
    (ty.isArray = false →
      Decl.build pos ty nm opt true e =
        .error (.incompatibleOperand pos "nonempty quantifier (+) on non-Array type")) ∧
    (ty.isArray = true →
      Decl.build pos ty nm opt true e = .ok ⟨pos, ty, nm, opt, true, e⟩) := by
  constructor
  · intro h
    simp [Decl.build, h]
  · intro h
    simp [Decl.build, h]

/-- Witness for C2 at the concrete types Int and Array[Int]. -/
theorem c2_decl_nonempty_invariant_witness :
    Decl.build pos0 (.int false) "xs" false true none =
      .error (.incompatibleOperand pos0 "nonempty quantifier (+) on non-Array type") ∧
    Decl.build pos0 (.array (.int false) false true) "xs" false true none =
      .ok ⟨pos0, .array (.int false) false true, "xs", false, true, none⟩ :=
  ⟨(c2_decl_nonempty_invariant pos0 (.int false) "xs" false none).1 rfl,
   (c2_decl_nonempty_invariant pos0 (.array (.int false) false true) "xs" false none).2 rfl⟩

/-- Claim C7: for a Decl satisfying the constructor invariant, bind returns
a new Decl with the same pos, type, name, optional and nonempty fields and
the given expression attached; the embedding is pure, so the original Decl
is untouched by construction. -/
theorem c7_bind_pure (d : Decl) (e : Expr)
    (h : d.nonempty = true → d.type.isArray = true) :
    Decl.bind d e = .ok ⟨d.pos, d.type, d.name, d.optional, d.nonempty, some e⟩ := by
  cases hn : d.nonempty with
  | false => simp [Decl.bind, Decl.build, hn]
  | true => simp [Decl.bind, Decl.build, hn, h hn]

/-- Witness for C7 at a concrete declaration and expression. -/
theorem c7_bind_pure_witness :
    Decl.bind aDecl (.int pos0 1) =
      .ok ⟨pos0, .int false, "a", false, false, some (.int pos0 1)⟩ :=
  c7_bind_pure aDecl (.int pos0 1) (fun h => by simp [aDecl] at h)

/-- Claim C9: a name passed to --empty that resolves to a declaration is
rejected when the declared type is not an Array or carries the nonempty
flag, and otherwise the input environment is extended with an empty Array
of the declared item type; the core constructor itself accepts a
nonempty-quantified Array declaration, so the empty-array rejection is
enforced only here in the consumer. -/
theorem c9_empty_input (avail : List (String × Decl)) (env : List (String × Value))
    (nm : String) (decl : Decl) (hlook : List.lookup nm avail = some decl) :
    ((decl.type.isArray = false ∨ decl.type.nonemptyFlag = true) →
      setEmptyOne avail env nm =
        .error (.die ("Cannot set input " ++ nm ++ " to empty array"))) ∧
    (decl.type.isArray = true → decl.type.nonemptyFlag = false →
      setEmptyOne avail env nm =
        .ok ((nm, Value.array decl.type.itemTypeD []) :: env)) ∧
    (∀ (pos : SourcePosition) (it : Ty) (opt : Bool),
      ∃ d2, Decl.build pos (.array it opt true) nm false true none = .ok d2 ∧
        d2.type.nonemptyFlag = true) := by
  refine ⟨?_, ?_, ?_⟩
  · intro h
    rcases h with h | h <;> simp [setEmptyOne, hlook, h]
  · intro h1 h2
    simp [setEmptyOne, hlook, h1, h2]
  · intro pos it opt
    exact ⟨⟨pos, .array it opt true, nm, false, true, none⟩,
      by simp [Decl.build, Ty.isArray], rfl⟩

/-- Witness for C9: the nonempty-quantified array input xs is rejected and
the plain array input ys is bound to an empty Array[Int]. -/
theorem c9_empty_input_witness :
    setEmptyOne [("xs", xsDecl), ("ys", ysDecl)] [] "xs" =
      .error (.die ("Cannot set input " ++ "xs" ++ " to empty array")) ∧
    setEmptyOne [("xs", xsDecl), ("ys", ysDecl)] [] "ys" =
      .ok [("ys", Value.array (.int false) [])] :=
  ⟨(c9_empty_input [("xs", xsDecl), ("ys", ysDecl)] [] "xs" xsDecl rfl).1 (Or.inr rfl),
   (c9_empty_input [("xs", xsDecl), ("ys", ysDecl)] [] "ys" ysDecl rfl).2.1 rfl rfl⟩

/-- Successful declaration checks extend the environment with exactly the
(name, type) pair, whether or not an expression was attached. -/
theorem typecheckDecl_ok_shape {cq : Bool} {d : Decl} {env env2 : TypeEnv}
    (h : typecheckDecl cq d env = .ok env2) : env2 = (d.name, d.type) :: env := by
  unfold typecheckDecl at h
  cases hx : d.expr with
  | none =>
      simp only [hx] at h
      exact (Except.ok.inj h).symm
  | some e =>
      simp only [hx] at h
      cases hi : inferType cq env e with
      | error er =>
          simp only [hi] at h
          exact absurd h (by simp)
      | ok t =>
          simp only [hi] at h
          cases ht : tyTypecheck t d.type cq with
          | error er =>
              simp only [ht] at h
              exact absurd h (by simp)
          | ok u =>
              simp only [ht] at h
              exact (Except.ok.inj h).symm

/-- Claim C1: Task.typecheck is a strict left-to-right fold over inputs then
postinputs in file order; each declaration with an attached expression has
it type-checked against the declared type before the environment is
extended, and the environment is extended with (name, type) in either case;
the command is then checked against String in the environment holding all
input and postinput bindings; on the concrete example, an initializer
referencing an earlier declaration type-checks while the reordered task
fails with an unknown-identifier error for the forward reference. -/
theorem c1_task_typecheck_fold :
    (∀ (cq : Bool) (ds : List Decl) (env env2 : TypeEnv),
      foldDecls cq ds env = .ok env2 → env2 = declBindings ds ++ env) ∧
    (∀ (cq : Bool) (d : Decl) (ds : List Decl) (env : TypeEnv) (er : Err),
      typecheckDecl cq d env = .error er → foldDecls cq (d :: ds) env = .error er) ∧
    (∀ (cq : Bool) (t : Task) (env env2 : TypeEnv),
      foldDecls cq (t.inputs ++ t.postinputs) env = .ok env2 →
      Task.typecheck cq t env = taskCheckRest cq t env2) ∧
    Task.typecheck true goodTask [] = .ok () ∧
    Task.typecheck true badTask [] = .error (.unknownIdentifier "a") := by
  refine ⟨?_, ?_, ?_, rfl, rfl⟩
  · intro cq ds
    induction ds with
    | nil =>
        intro env env2 h
        simp [foldDecls] at h
        simp [declBindings, h]
    | cons d ds ih =>
        intro env env2 h
        unfold foldDecls at h
        cases htc : typecheckDecl cq d env with
        | error er =>
            simp only [htc] at h
            exact absurd h (by simp)
        | ok env1 =>
            simp only [htc] at h
            have h1 := typecheckDecl_ok_shape htc
            have h2 := ih env1 env2 h
            subst h1
            rw [h2]
            simp [declBindings]
  · intro cq d ds env er h
    unfold foldDecls
    rw [h]
  · intro cq t env env2 h
    unfold Task.typecheck taskCheckRest
    rw [h]

/-- Witness for C1: the fold over the example task's inputs yields exactly
the declared bindings, the whole typecheck reduces to the command and
output checks in that environment, and the reordered fold fails fast on the
forward reference. -/
theorem c1_task_typecheck_fold_witness :
    [("b", Ty.int false), ("a", Ty.int false)] =
      declBindings (goodTask.inputs ++ goodTask.postinputs) ++ [] ∧
    Task.typecheck true goodTask [] =
      taskCheckRest true goodTask [("b", Ty.int false), ("a", Ty.int false)] ∧
    foldDecls true [bDecl, aDecl] [] = .error (.unknownIdentifier "a") :=
  ⟨c1_task_typecheck_fold.1 true (goodTask.inputs ++ goodTask.postinputs) [] _ rfl,
   c1_task_typecheck_fold.2.2.1 true goodTask [] _ rfl,
   c1_task_typecheck_fold.2.1 true bDecl [aDecl] [] (.unknownIdentifier "a") rfl⟩

/-- Aggregation steps are occupancy-checked insertions. -/
theorem aggStep_eq (g : Agg) (it : TaskItem) :
    aggStep g it =
      if occupied g (keyOf it) then .error .assertionError else .ok (insertItem g it) := by
  cases it with
  | inputsSec ds => rfl
  | declsSec ds => rfl
  | commandSec c => rfl
  | outputsSec ds => rfl
  | metaSec kind m => cases kind <;> rfl
  | nameTok s => rfl

/-- Occupancy after an insertion: the inserted key and everything occupied
before. -/
theorem occupied_insertItem (g : Agg) (it : TaskItem) (k : Key) :
    occupied (insertItem g it) k = true ↔ (occupied g k = true ∨ k = keyOf it) := by
  cases it with
  | inputsSec ds => cases k <;> simp [occupied, insertItem, keyOf]
  | declsSec ds => cases k <;> simp [occupied, insertItem, keyOf]
  | commandSec c => cases k <;> simp [occupied, insertItem, keyOf]
  | outputsSec ds => cases k <;> simp [occupied, insertItem, keyOf]
  | metaSec kind m => cases kind <;> cases k <;> simp [occupied, insertItem, keyOf]
  | nameTok s => cases k <;> simp [occupied, insertItem, keyOf]

/-- An aggregation run hitting an item whose key is already occupied ends
in the assertion failure. -/
theorem aggFrom_mem_occupied :
    ∀ (its : List TaskItem) (g : Agg) (k : Key),
      k ∈ its.map keyOf → occupied g k = true →
      aggFrom g its = .error .assertionError := by
  intro its
  induction its with
  | nil =>
      intro g k hk
      simp at hk
  | cons it its ih =>
      intro g k hk hocc
      unfold aggFrom
      rw [aggStep_eq]
      by_cases h : occupied g (keyOf it) = true
      · simp [h]
      · rw [Bool.not_eq_true] at h
        simp only [h, Bool.false_eq_true, if_false]
        simp only [List.map_cons, List.mem_cons] at hk
        rcases hk with rfl | hk
        · rw [hocc] at h
          cases h
        · exact ih (insertItem g it) k hk ((occupied_insertItem g it k).mpr (Or.inl hocc))

/-- A duplicate key in the item list makes the aggregation loop fail with
the assertion failure. -/
theorem aggFrom_dup_error :
    ∀ (its : List TaskItem) (g : Agg),
      ¬ (its.map keyOf).Nodup → aggFrom g its = .error .assertionError := by
  intro its
  induction its with
  | nil =>
      intro g h
      simp at h
  | cons it its ih =>
      intro g h
      unfold aggFrom
      rw [aggStep_eq]
      by_cases hocc : occupied g (keyOf it) = true
      · simp [hocc]
      · rw [Bool.not_eq_true] at hocc
        simp only [hocc, Bool.false_eq_true, if_false]
        by_cases hmem : keyOf it ∈ its.map keyOf
        · exact aggFrom_mem_occupied its (insertItem g it) (keyOf it) hmem
            ((occupied_insertItem g it (keyOf it)).mpr (Or.inr rfl))
        · refine ih (insertItem g it) (fun hnd => h ?_)
          rw [List.map_cons, List.nodup_cons]
          exact ⟨hmem, hnd⟩

/-- Insertion under a non-name key leaves the name slot unchanged. -/
theorem insertItem_name (g : Agg) (it : TaskItem) (h : keyOf it ≠ Key.name) :
    (insertItem g it).name = g.name := by
  cases it with
  | inputsSec ds => rfl
  | declsSec ds => rfl
  | commandSec c => rfl
  | outputsSec ds => rfl
  | metaSec kind m => cases kind <;> rfl
  | nameTok s => exact absurd rfl h

/-- Aggregation of a duplicate-free item list over fresh keys succeeds, and
when no name token is present the name slot is untouched. -/
theorem aggFrom_nodup_ok :
    ∀ (its : List TaskItem) (g : Agg),
      (its.map keyOf).Nodup →
      (∀ k ∈ its.map keyOf, occupied g k = false) →
      ∃ g2, aggFrom g its = .ok g2 ∧
        (Key.name ∉ its.map keyOf → g2.name = g.name) := by
  intro its
  induction its with
  | nil =>
      intro g _ _
      exact ⟨g, rfl, fun _ => rfl⟩
  | cons it its ih =>
      intro g hnd hall
      have hocc : occupied g (keyOf it) = false := hall _ (by simp)
      unfold aggFrom
      rw [aggStep_eq]
      simp only [hocc, Bool.false_eq_true, if_false]
      rw [List.map_cons, List.nodup_cons] at hnd
      obtain ⟨hnotmem, hnd2⟩ := hnd
      have hall2 : ∀ k ∈ its.map keyOf, occupied (insertItem g it) k = false := by
        intro k hk
        have h1 : occupied g k = false := hall k (by simp [hk])
        have h2 : k ≠ keyOf it := fun he => hnotmem (he ▸ hk)
        cases hins : occupied (insertItem g it) k with
        | false => rfl
        | true =>
            rcases (occupied_insertItem g it k).mp hins with hcase | hcase
            · rw [h1] at hcase
              cases hcase
            · exact absurd hcase h2
      obtain ⟨g2, hok, hname⟩ := ih (insertItem g it) hnd2 hall2
      refine ⟨g2, hok, ?_⟩
      intro hnm
      simp only [List.map_cons, List.mem_cons, not_or] at hnm
      rw [hname hnm.2, insertItem_name g it (fun he => hnm.1 he.symm)]

/-- Claim C3 (amended): the aggregator does reject duplicate section keys,
but with an internal assertion failure (a bare assert with a TODO comment),
not a position-carrying validation error; it also requires exactly one name
token: a second one trips the same duplicate-key assertion, and a missing
one surfaces as KeyError when the Task is built. -/
theorem c3_duplicate_section_keys :
    (∀ (pos : SourcePosition) (items : List TaskItem),
      ¬ (items.map keyOf).Nodup → taskTransform pos items = .error .assertionError) ∧
    (∀ (pos : SourcePosition) (items : List TaskItem),
      (items.map keyOf).Nodup → Key.name ∉ items.map keyOf →
      taskTransform pos items = .error (.keyError "name")) := by
  constructor
  · intro pos items h
    unfold taskTransform aggregate
    rw [aggFrom_dup_error items emptyAgg h]
  · intro pos items hnd hnm
    obtain ⟨g2, hok, hname⟩ :=
      aggFrom_nodup_ok items emptyAgg hnd (fun k _ => by cases k <;> rfl)
    have h2 : g2.name = none := by rw [hname hnm]; rfl
    simp only [taskTransform, aggregate, hok, buildTask, h2]

/-- Counterexample for C3 as stated: a task parse tree with two runtime
sections is rejected with an AssertionError, which is not a validation
error. -/
theorem c3_duplicate_section_keys_counterexample :
    taskTransform pos0 dupRuntimeItems = .error .assertionError ∧
    isValidationFailure (taskTransform pos0 dupRuntimeItems) = false :=
  ⟨rfl, rfl⟩

/-- Witness for C3 at the concrete duplicate-runtime and missing-name item
lists. -/
theorem c3_duplicate_section_keys_witness :
    taskTransform pos0 dupRuntimeItems = .error .assertionError ∧
    taskTransform pos0 noNameItems = .error (.keyError "name") :=
  ⟨c3_duplicate_section_keys.1 pos0 dupRuntimeItems (by decide),
   c3_duplicate_section_keys.2 pos0 noNameItems (by decide) (by decide)⟩

/-- Claim C10: building the Task from an aggregated parse tree fails with
KeyError when the name token or the command section is absent (name being
read first), while every other absent section defaults to an empty list or
mapping; the concrete name-and-command-only task gets all six defaults. -/
theorem c10_task_section_defaults :
    (∀ (pos : SourcePosition) (items : List TaskItem) (g : Agg),
      aggregate items = .ok g →
      ((g.name = none → taskTransform pos items = .error (.keyError "name")) ∧
       (∀ nm, g.name = some nm → g.command = none →
         taskTransform pos items = .error (.keyError "command")) ∧
       (∀ nm c, g.name = some nm → g.command = some c →
         taskTransform pos items =
           .ok ⟨pos, nm, g.inputs.getD [], g.decls.getD [], c, g.outputs.getD [],
                g.parameter_meta.getD [], g.runtime.getD [], g.meta.getD []⟩))) ∧
    taskTransform pos0 nameCmdItems =
      .ok ⟨pos0, "t", [], [], .string pos0 [], [], [], [], []⟩ := by
  constructor
  · intro pos items g hagg
    refine ⟨?_, ?_, ?_⟩
    · intro h
      simp only [taskTransform, hagg, buildTask, h]
    · intro nm h1 h2
      simp only [taskTransform, hagg, buildTask, h1, h2]
    · intro nm c h1 h2
      simp only [taskTransform, hagg, buildTask, h1, h2]
  · rfl

/-- Witness for C10 at the name-and-command-only item list. -/
theorem c10_task_section_defaults_witness :
    aggregate nameCmdItems = .ok agg0 ∧
    taskTransform pos0 nameCmdItems =
      .ok ⟨pos0, "t", agg0.inputs.getD [], agg0.decls.getD [], .string pos0 [],
           agg0.outputs.getD [], agg0.parameter_meta.getD [], agg0.runtime.getD [],
           agg0.meta.getD []⟩ :=
  ⟨rfl,
   (c10_task_section_defaults.1 pos0 nameCmdItems agg0 rfl).2.2 "t" (.string pos0 []) rfl rfl⟩

/-- Stripping the trailing interpolation-open marker recovers the clean
payload. -/
theorem dropLast2_append (s : List Char) :
    (s ++ interpOpen).dropLast.dropLast = s := by
  have h : s ++ interpOpen = (s ++ ['$']) ++ ['\x7b'] := by
    simp [interpOpen]
  rw [h, List.dropLast_concat, List.dropLast_concat]

/-- The part stored for a well-formed string-rule item is clean and related
to the item as the claim describes. -/
theorem strPartOf_ok (it : StrItem) (h : wfStrItem it) :
    cleanPart (strPartOf it) ∧ strPartSpec it (strPartOf it) := by
  cases it with
  | expr e =>
      refine ⟨trivial, ?_, ?_, ?_⟩
      · intro e2 he
        injection he with h1
        subst h1
        rfl
      · intro t v s he
        exact absurd he (by simp)
      · intro t v he
        exact absurd he (by simp)
  | token t v =>
      cases hF : endsWithFragment t with
      | true =>
          have hwf : ∃ s, v = s ++ interpOpen ∧ cleanChars s := by
            simpa [wfStrItem, hF] using h
          obtain ⟨s, hv, hc⟩ := hwf
          have hstr : strPartOf (.token t v) = .lit s := by
            simp [strPartOf, hF, hv, dropLast2_append]
          rw [hstr]
          refine ⟨hc, ?_, ?_, ?_⟩
          · intro e he
            exact absurd he (by simp)
          · intro t2 v2 s2 he hF2 hv2
            injection he with h1 h2
            subst h1
            subst h2
            have hs : s = s2 := List.append_cancel_right (hv.symm.trans hv2)
            rw [hs]
          · intro t2 v2 he hF2
            injection he with h1 h2
            subst h1
            rw [hF] at hF2
            cases hF2
      | false =>
          have hwf : cleanChars v := by
            simpa [wfStrItem, hF] using h
          have hstr : strPartOf (.token t v) = .lit v := by
            simp [strPartOf, hF]
          rw [hstr]
          refine ⟨hwf, ?_, ?_, ?_⟩
          · intro e he
            exact absurd he (by simp)
          · intro t2 v2 s2 he hF2 hv2
            injection he with h1 h2
            subst h1
            rw [hF] at hF2
            cases hF2
          · intro t2 v2 he hF2
            injection he with h1 h2
            subst h2
            rfl

/-- The part stored for a well-formed command-rule item is clean and
related to the item as the claim describes. -/
theorem cmdPartOf_ok (it : CmdItem) (h : wfCmdItem it) :
    cleanPart (cmdPartOf it) ∧ cmdPartSpec it (cmdPartOf it) := by
  cases it with
  | placeholder opts inner =>
      refine ⟨trivial, ?_, ?_, ?_⟩
      · intro o2 i2 he
        injection he with h1 h2
        subst h1
        subst h2
        rfl
      · intro t v s he
        exact absurd he (by simp)
      · intro t v he
        exact absurd he (by simp)
  | token t v =>
      cases hF : endsWithFragment t with
      | true =>
          have hwf : ∃ s, v = s ++ interpOpen ∧ cleanChars s := by
            simpa [wfCmdItem, hF] using h
          obtain ⟨s, hv, hc⟩ := hwf
          have hstr : cmdPartOf (.token t v) = .lit s := by
            simp [cmdPartOf, hF, hv, dropLast2_append]
          rw [hstr]
          refine ⟨hc, ?_, ?_, ?_⟩
          · intro o2 i2 he
            exact absurd he (by simp)
          · intro t2 v2 s2 he hF2 hv2
            injection he with h1 h2
            subst h1
            subst h2
            have hs : s = s2 := List.append_cancel_right (hv.symm.trans hv2)
            rw [hs]
          · intro t2 v2 he hF2
            injection he with h1 h2
            subst h1
            rw [hF] at hF2
            cases hF2
      | false =>
          have hwf : cleanChars v := by
            simpa [wfCmdItem, hF] using h
          have hstr : cmdPartOf (.token t v) = .lit v := by
            simp [cmdPartOf, hF]
          rw [hstr]
          refine ⟨hwf, ?_, ?_, ?_⟩
          · intro o2 i2 he
            exact absurd he (by simp)
          · intro t2 v2 s2 he hF2 hv2
            injection he with h1 h2
            subst h1
            rw [hF] at hF2
            cases hF2
          · intro t2 v2 he hF2
            injection he with h1 h2
            subst h2
            rfl

/-- Claim C5: under the grammar contract the parts list built by the string
and command rules contains only clean literal runs and Placeholder nodes; a
fragment whose value is a payload followed by the interpolation-open marker
is stored as just the payload, and no stored literal is a placeholder-
closing marker or ends with the open marker. -/
theorem c5_string_parts_clean :
    (∀ (pos : SourcePosition) (items : List StrItem),
      (∀ it ∈ items, wfStrItem it) →
      ∃ parts, xfString pos items = .string pos parts ∧
        List.Forall₂ (fun it p => cleanPart p ∧ strPartSpec it p) items parts) ∧
    (∀ (pos : SourcePosition) (items : List CmdItem),
      (∀ it ∈ items, wfCmdItem it) →
      ∃ parts, xfCommand pos items = .string pos parts ∧
        List.Forall₂ (fun it p => cleanPart p ∧ cmdPartSpec it p) items parts) := by
  constructor
  · intro pos items hwf
    refine ⟨items.map strPartOf, rfl, ?_⟩
    rw [List.forall₂_map_right_iff, List.forall₂_same]
    intro it hit
    exact strPartOf_ok it (hwf it hit)
  · intro pos items hwf
    refine ⟨items.map cmdPartOf, rfl, ?_⟩
    rw [List.forall₂_map_right_iff, List.forall₂_same]
    intro it hit
    exact cmdPartOf_ok it (hwf it hit)

/-- Witness for C5 at concrete fragment and placeholder items. -/
theorem c5_string_parts_clean_witness :
    List.Forall₂ (fun it p => cleanPart p ∧ strPartSpec it p) strItemsExW
      [SPart.lit ['a', 'b']] ∧
    List.Forall₂ (fun it p => cleanPart p ∧ cmdPartSpec it p) cmdItemsExW
      [SPart.lit "echo ".toList, SPart.placeholder [] (.ident pos0 ["x"])] := by
  constructor
  · obtain ⟨parts, hp, hf⟩ := c5_string_parts_clean.1 pos0 strItemsExW (by
      intro it hit
      simp only [strItemsExW, List.mem_singleton] at hit
      subst hit
      exact ⟨['a', 'b'], by decide, by decide, by decide⟩)
    have h2 : xfString pos0 strItemsExW =
        Expr.string pos0 [SPart.lit ['a', 'b']] := rfl
    rw [h2] at hp
    injection hp.symm with h3 h4
    rw [← h4]
    exact hf
  · obtain ⟨parts, hp, hf⟩ := c5_string_parts_clean.2 pos0 cmdItemsExW (by
      intro it hit
      simp only [cmdItemsExW, List.mem_cons, List.mem_singleton,
        List.not_mem_nil, or_false] at hit
      rcases hit with rfl | rfl
      · exact ⟨"echo ".toList, by decide, by decide, by decide⟩
      · exact trivial)
    have h2 : xfCommand pos0 cmdItemsExW =
        Expr.string pos0
          [SPart.lit "echo ".toList, SPart.placeholder [] (.ident pos0 ["x"])] := rfl
    rw [h2] at hp
    injection hp.symm with h3 h4
    rw [← h4]
    exact hf

/-- Unfolding equation for one step of the trimming loop. -/
theorem trimEndCol_succ (line : List Char) (col e : Nat) :
    trimEndCol line col (e + 1) =
      if trimCond line col (e + 1) then trimEndCol line col e else e + 1 := rfl

/-- The trimming loop never increases the end column. -/
theorem trimEndCol_le (line : List Char) (col : Nat) :
    ∀ e, trimEndCol line col e ≤ e := by
  intro e
  induction e with
  | zero => simp [trimEndCol]
  | succ e ih =>
      rw [trimEndCol_succ]
      by_cases h : trimCond line col (e + 1)
      · simp only [h, if_true]
        exact le_trans ih (Nat.le_succ e)
      · simp only [h, if_false]
        exact le_refl _

/-- The trimming loop stops at a column where its condition fails. -/
theorem trimEndCol_not_cond (line : List Char) (col : Nat) :
    ∀ e, ¬ trimCond line col (trimEndCol line col e) := by
  intro e
  induction e with
  | zero =>
      simp [trimEndCol, trimCond]
  | succ e ih =>
      rw [trimEndCol_succ]
      by_cases h : trimCond line col (e + 1)
      · simp only [h, if_true]
        exact ih
      · rw [if_neg h]
        exact h

/-- Every column the trimming loop skipped satisfied its condition. -/
theorem trimEndCol_between (line : List Char) (col : Nat) :
    ∀ e j, trimEndCol line col e < j → j ≤ e → trimCond line col j := by
  intro e
  induction e with
  | zero =>
      intro j h1 h2
      omega
  | succ e ih =>
      intro j h1 h2
      by_cases h : trimCond line col (e + 1)
      · rw [trimEndCol_succ, if_pos h] at h1
        rcases Nat.lt_or_ge j (e + 1) with hj | hj
        · exact ih j h1 (by omega)
        · have hj2 : j = e + 1 := by omega
          rw [hj2]
          exact h
      · rw [trimEndCol_succ, if_neg h] at h1
        omega

/-- Claim C8 (amended): the excerpt shows the reported line with tabs
replaced, and the underline starts at the reported column but ends at an
end column obtained from end_column by first clamping to the end of the
reported line when the span covers several lines, and then trimming over
trailing spaces while more than one caret remains: the final end column
fails the trim condition while every skipped one satisfied it. -/
theorem c8_underline_amended (src : List Char) (pos : SourcePosition) :
    ∃ ec,
      (renderExcerpt src pos).1 =
        replaceTabs ((src.splitOn '\n').getD (pos.line - 1) []) ∧
      (renderExcerpt src pos).2 =
        List.replicate (pos.column - 1) ' ' ++ List.replicate (ec - pos.column) '^' ∧
      ec ≤ (if pos.end_line > pos.line
            then (renderExcerpt src pos).1.length + 1 else pos.end_column) ∧
      ¬ trimCond (renderExcerpt src pos).1 pos.column ec ∧
      (∀ j, ec < j →
        j ≤ (if pos.end_line > pos.line
             then (renderExcerpt src pos).1.length + 1 else pos.end_column) →
        trimCond (renderExcerpt src pos).1 pos.column j) := by
  refine ⟨trimEndCol (replaceTabs ((src.splitOn '\n').getD (pos.line - 1) []))
    pos.column
    (if pos.end_line > pos.line
     then (replaceTabs ((src.splitOn '\n').getD (pos.line - 1) [])).length + 1
     else pos.end_column), rfl, rfl, ?_, ?_, ?_⟩
  · exact trimEndCol_le _ _ _
  · exact trimEndCol_not_cond _ _ _
  · intro j h1 h2
    exact trimEndCol_between _ _ _ j h1 h2

/-- Counterexample for C8 as stated: on the source line consisting of the
two characters a and space, an error spanning columns one to three on that
single line is underlined with one caret, not with the two carets that an
underline spanning the full half-open column interval would need, because
the trailing space is trimmed. -/
theorem c8_underline_counterexample :
    (renderExcerpt ("a \nx".toList) ⟨"", 1, 1, 1, 3⟩).2 = ['^'] ∧
    (renderExcerpt ("a \nx".toList) ⟨"", 1, 1, 1, 3⟩).2 ≠
      List.replicate ((1 : Nat) - 1) ' ' ++ List.replicate (3 - 1) '^' := by
  constructor
  · rfl
  · decide

/-- Warning over a list of printed exceptions holds exactly when some
member sets it. -/
theorem quantWarningAny_iff (es : List Exn) :
    quantWarningAny es = true ↔ ∃ e ∈ es, quantWarningOf e = true := by
  induction es with
  | nil => simp [quantWarningAny]
  | cons e es ih =>
      simp only [quantWarningAny, Bool.or_eq_true, ih, List.mem_cons]
      constructor
      · rintro (h | ⟨e2, he2, hq⟩)
        · exact ⟨e, Or.inl rfl, h⟩
        · exact ⟨e2, Or.inr he2, hq⟩
      · rintro ⟨e2, he2 | he2, hq⟩
        · subst he2
          exact Or.inl hq
        · exact Or.inr ⟨e2, he2, hq⟩

/-- The warning flag computed by print_error holds exactly when a
source-text-carrying relaxed-coercible static type mismatch sits somewhere
in the printed exception tree. -/
theorem quantWarning_iff :
    ∀ exn : Exn, quantWarningOf exn = true ↔ SourcedRelaxedMismatchIn exn := by
  have fwd : ∀ (n : Nat) (exn : Exn), sizeOf exn ≤ n →
      quantWarningOf exn = true → SourcedRelaxedMismatchIn exn := by
    intro n
    induction n using Nat.strong_induction_on with
    | _ n ih =>
        intro exn hsz hq
        cases exn with
        | validation p st m =>
            simp [quantWarningOf] at hq
        | staticMismatch p st e a =>
            simp only [quantWarningOf, Bool.and_eq_true, bne_iff_ne, ne_eq] at hq
            exact .found p st e a hq.1 hq.2
        | importErr p c =>
            cases c with
            | none => simp [quantWarningOf] at hq
            | some c2 =>
                simp only [quantWarningOf] at hq
                have h1 : sizeOf c2 < sizeOf (Exn.importErr p (some c2)) := by
                  simp
                  omega
                exact .importCause p c2 (ih (sizeOf c2) (by omega) c2 le_rfl hq)
        | multiple errs =>
            simp only [quantWarningOf] at hq
            obtain ⟨e, he, hqe⟩ := (quantWarningAny_iff errs).mp hq
            have h1 : sizeOf e < sizeOf (Exn.multiple errs) := by
              have h2 := List.sizeOf_lt_of_mem he
              simp
              omega
            exact .multipleMem errs e he (ih (sizeOf e) (by omega) e le_rfl hqe)
  intro exn
  constructor
  · exact fun hq => fwd (sizeOf exn) exn le_rfl hq
  · intro h
    induction h with
    | found p st e a h1 h2 =>
        simp only [quantWarningOf, Bool.and_eq_true, bne_iff_ne, ne_eq]
        exact ⟨h1, h2⟩
    | importCause p c hc ihh =>
        simpa [quantWarningOf] using ihh
    | multipleMem errs e he hrm ihh =>
        simp only [quantWarningOf]
        exact (quantWarningAny_iff errs).mpr ⟨e, he, ihh⟩

/-- Claim C4 (amended): the relaxed-quantifier hint is printed exactly when
strict checking was in effect and the printed exception tree contains a
StaticTypeMismatch that carries source text and whose actual type coerces
to its expected type under check_quant=False; the printer records that
condition inside the source-excerpt branch, so a mismatch without source
text never triggers the hint. -/
theorem c4_quant_hint_amended (cq : Bool) (exn : Exn) :
    mainHint cq exn = true ↔ (cq = true ∧ SourcedRelaxedMismatchIn exn) := by
  unfold mainHint
  rw [Bool.and_eq_true, quantWarning_iff]

/-- Counterexample for C4 as stated: a relaxed-coercible static type
mismatch without attached source text is seen by the printer under strict
checking, yet the hint is not emitted. -/
theorem c4_quant_hint_counterexample :
    mainHint true bareMismatch = false ∧ RelaxedMismatchIn bareMismatch := by
  constructor
  · rfl
  · exact .found pos0 "" (.int false) (.int true) (by decide)

/-- Coercion is reflexive: identity always coerces. -/
theorem coerces_refl (t : Ty) (cq : Bool) : Ty.coerces t t cq = true := by
  simp [Ty.coerces]

/-- Evaluation of a placeholder-free part list always succeeds. -/
theorem evalParts_allLit :
    ∀ (parts : List SPart), allLitParts parts = true →
      ∃ s, evalParts parts = .ok s := by
  intro parts
  induction parts with
  | nil =>
      intro _
      exact ⟨[], rfl⟩
  | cons p ps ih =>
      intro h
      cases p with
      | lit s =>
          have h2 : allLitParts ps = true := by simpa [allLitParts] using h
          obtain ⟨s2, hs2⟩ := ih h2
          exact ⟨s ++ s2, by simp [evalParts, hs2]⟩
      | placeholder o i =>
          simp [allLitParts] at h

/-- Unfolding equation for inference over a nonempty list. -/
theorem inferTypes_cons (cq : Bool) (env : TypeEnv) (e : Expr) (es : List Expr) :
    inferTypes cq env (e :: es) =
      match inferType cq env e with
      | .error er => .error er
      | .ok t =>
          match inferTypes cq env es with
          | .error er => .error er
          | .ok ts => .ok (t :: ts) := rfl

/-- Unfolding equation for evaluation over a nonempty list. -/
theorem evalList_cons (e : Expr) (es : List Expr) :
    evalList (e :: es) =
      match eval e with
      | .error er => .error er
      | .ok v =>
          match evalList es with
          | .error er => .error er
          | .ok vs => .ok (v :: vs) := rfl

/-- Inference and evaluation succeed uniformly over a list of literals of a
common kind, given that they succeed on each member. -/
theorem litKindList_sound :
    ∀ (items : List Expr),
      (∀ e ∈ items, ∀ k, litKind e = some k →
        inferType true [] e = .ok (tyOfKind k) ∧ ∃ v, eval e = .ok v) →
      ∀ k, litKindList items = some k →
        inferTypes true [] items = .ok (items.map fun _ => tyOfKind k) ∧
        ∃ vs, evalList items = .ok vs := by
  intro items
  induction items with
  | nil =>
      intro _ k hk
      simp only [litKindList] at hk
      injection hk with hk2
      subst hk2
      exact ⟨rfl, ⟨[], rfl⟩⟩
  | cons e rest ih =>
      intro hP k hk
      cases rest with
      | nil =>
          have hke : litKind e = some k := by simpa [litKindList] using hk
          obtain ⟨hi, v, hv⟩ := hP e (by simp) k hke
          refine ⟨?_, ⟨[v], ?_⟩⟩
          · simp [inferTypes, hi]
          · simp [evalList, hv]
      | cons e2 es =>
          simp only [litKindList] at hk
          cases h1 : litKind e with
          | none =>
              simp only [h1] at hk
              exact Option.noConfusion hk
          | some k1 =>
              cases h2 : litKindList (e2 :: es) with
              | none =>
                  simp only [h1, h2] at hk
                  exact Option.noConfusion hk
              | some k2 =>
                  simp only [h1, h2] at hk
                  by_cases heq : k1 = k2
                  · rw [if_pos heq] at hk
                    injection hk with hk3
                    subst hk3
                    obtain ⟨hi, v, hv⟩ := hP e (by simp) k1 h1
                    have hPrest : ∀ e3 ∈ e2 :: es, ∀ k3, litKind e3 = some k3 →
                        inferType true [] e3 = .ok (tyOfKind k3) ∧
                        ∃ v2, eval e3 = .ok v2 := by
                      intro e3 he3 k3 hk3b
                      exact hP e3 (by simp [he3]) k3 hk3b
                    obtain ⟨hinfR, vs, hevR⟩ := ih hPrest k1 (heq ▸ h2)
                    refine ⟨?_, ⟨v :: vs, ?_⟩⟩
                    · simp only [inferTypes_cons, hi, hinfR, List.map_cons]
                    · simp only [evalList_cons, hv, hevR]
                  · rw [if_neg heq] at hk
                    cases hk

/-- Every literal expression of a determined kind infers the corresponding
type and evaluates to a plain value. -/
theorem litKind_sound :
    ∀ (e : Expr) (k : LKind), litKind e = some k →
      inferType true [] e = .ok (tyOfKind k) ∧ ∃ v, eval e = .ok v := by
  have main : ∀ (n : Nat) (e : Expr), sizeOf e ≤ n → ∀ k, litKind e = some k →
      inferType true [] e = .ok (tyOfKind k) ∧ ∃ v, eval e = .ok v := by
    intro n
    induction n using Nat.strong_induction_on with
    | _ n ih =>
        intro e hsz k hk
        cases e with
        | boolean p b =>
            simp only [litKind] at hk
            injection hk with hk2
            subst hk2
            exact ⟨rfl, ⟨.boolean b, rfl⟩⟩
        | int p nn =>
            simp only [litKind] at hk
            injection hk with hk2
            subst hk2
            exact ⟨rfl, ⟨.int nn, rfl⟩⟩
        | string p parts =>
            simp only [litKind] at hk
            cases hl : allLitParts parts with
            | false =>
                simp only [hl, Bool.false_eq_true, if_false] at hk
                exact Option.noConfusion hk
            | true =>
                simp only [hl, if_true] at hk
                injection hk with hk2
                subst hk2
                obtain ⟨s, hs⟩ := evalParts_allLit parts hl
                exact ⟨rfl, ⟨.string s, by simp [eval, hs]⟩⟩
        | array p items =>
            simp only [litKind] at hk
            cases hkl : litKindList items with
            | none =>
                simp only [hkl] at hk
                exact Option.noConfusion hk
            | some k0 =>
                simp only [hkl] at hk
                injection hk with hk2
                subst hk2
                have hP : ∀ e2 ∈ items, ∀ k2, litKind e2 = some k2 →
                    inferType true [] e2 = .ok (tyOfKind k2) ∧
                    ∃ v, eval e2 = .ok v := by
                  intro e2 he2 k2 hk2
                  have hlt : sizeOf e2 < sizeOf (Expr.array p items) := by
                    have hm := List.sizeOf_lt_of_mem he2
                    simp
                    omega
                  exact ih (sizeOf e2) (by omega) e2 le_rfl k2 hk2
                obtain ⟨hinf, vs, hevl⟩ := litKindList_sound items hP k0 hkl
                have hinfA : inferType true [] (.array p items) =
                    .ok (.array (tyOfKind k0) false false) := by
                  cases items with
                  | nil =>
                      have hk0 : k0 = .str := by
                        simpa [litKindList] using hkl.symm
                      subst hk0
                      rfl
                  | cons e1 rest =>
                      have hfind : (rest.map fun _ => tyOfKind k0).find?
                          (fun u => !(u.coerces (tyOfKind k0) true)) = none := by
                        rw [List.find?_eq_none]
                        intro x hx
                        obtain ⟨y, hy, hxy⟩ := List.mem_map.mp hx
                        rw [← hxy]
                        simp [coerces_refl]
                      simp only [inferType, hinf, List.map_cons, hfind]
                refine ⟨by simpa [tyOfKind] using hinfA, ?_⟩
                exact ⟨.array (tyOfKind k0) vs, by simp [eval, hinfA, hevl]⟩
        | apply p fn args =>
            simp only [litKind] at hk
            exact Option.noConfusion hk
        | ifthenelse p c t2 e2 =>
            simp only [litKind] at hk
            exact Option.noConfusion hk
        | ident p ps =>
            simp only [litKind] at hk
            exact Option.noConfusion hk
  exact fun e k hk => main (sizeOf e) e le_rfl k hk

/-- Claim C6: a literal expression in a meta, parameter_meta or runtime
section is constant-folded at parse time: meta_literal infers its type and
immediately evaluates it to a plain runtime value, so the stored mappings
hold plain values and never unresolved expression nodes; the concrete
integer-array literal folds to the corresponding Array value. -/
theorem c6_meta_constant_folding :
    (∀ (e : Expr) (k : LKind), litKind e = some k →
      ∃ v, metaLiteral e = .ok v) ∧
    metaLiteral (.array pos0 [.int pos0 1, .int pos0 2]) =
      .ok (.array (.int false) [.int 1, .int 2]) := by
  constructor
  · intro e k hk
    obtain ⟨hi, v, hv⟩ := litKind_sound e k hk
    exact ⟨v, by simp [metaLiteral, hi, hv]⟩
  · rfl

/-- Witness for C6 at a concrete boolean literal. -/
theorem c6_meta_constant_folding_witness :
    litKind (Expr.boolean pos0 true) = some LKind.bool ∧
    (metaLiteral (Expr.boolean pos0 true)).isOk = true := by
  refine ⟨rfl, ?_⟩
  obtain ⟨v, hv⟩ := c6_meta_constant_folding.1 (.boolean pos0 true) .bool rfl
  simp [hv, Except.isOk, Except.toBool]

end MiniWdl
